import Mathlib

/-!
Shallow embedding of `src/main.ts` (webcodecs-capture): the pure reducer
(`reduce`), the pattern-input parser (`parsePatternInput`), the phase
sequencer (`startIllumination`, modelled by `emitStep`/`seqRun`), the
one-shot wrapper (`createOnce`, modelled by `callOnce`), and the frame
read loop of `run` (modelled by `runLoop`/`finishRun`).

JS numbers that only ever hold small integers are modelled as `Int`
(so that subtraction such as `TARGET_LENGTH - captures.length` behaves
as in the source); captured data URLs are opaque `String`s.
-/

/-- `TARGET_LENGTH` constant, main.ts line 1. -/
def TARGET_LENGTH : Nat := 20

/-- `AppState`, main.ts lines 4-14.  `pendingCaptures` is an `Int`
(a JS number); `selectedCaptureIndex` is `number | null`. -/
structure AppState where
  phaseIsWhite : Bool
  status : String
  error : String
  pendingCaptures : Int
  captures : List String
  captureComplete : Bool
  patternString : String
  isRunning : Bool
  selectedCaptureIndex : Option Int
deriving DecidableEq

/-- `AppEvent`, main.ts lines 16-24.  The extra `other` constructor models a
runtime event object whose `type` string matches none of the recognized
kinds, which the `switch` in `reduce` sends to its `default` branch. -/
inductive AppEvent where
  | patternChanged (value : String)
  | beginRun (patternString : String)
  | phaseChanged (isWhite : Bool)
  | frameCaptured (dataUrl : String)
  | streamStarted
  | error (message : String) (status : Option String)
  | runComplete
  | selectCapture (index : Int)
  | other (ty : String)
deriving DecidableEq

/-- `ParsedPattern`, main.ts lines 26-30. -/
structure ParsedPattern where
  text : String
  sequence : List Bool
  isComplete : Bool
deriving DecidableEq

/-- The `text` computation of `parsePatternInput`, main.ts lines 47-50.
`value.toUpperCase()` is modelled character-wise with `Char.toUpper`;
the regex replace of `[^BW]` with the empty string is a filter keeping
only `B`/`W`; `slice(0, limit)` is `List.take limit`. -/
def patternText (value : String) (limit : Nat) : List Char :=
  ((value.data.map Char.toUpper).filter (fun c => c == 'B' || c == 'W')).take limit

/-- `parsePatternInput`, main.ts lines 46-57. -/
def parsePatternInput (value : String) (limit : Nat := TARGET_LENGTH) : ParsedPattern :=
  let text : List Char := patternText value limit
  let sequence : List Bool := text.map (fun c => c == 'W')
  { text := String.mk text
    sequence := sequence
    isComplete := sequence.length == limit }

/-- `initialState`, main.ts lines 120-130. -/
def initialState : AppState :=
  { phaseIsWhite := false
    status := "Enter " ++ toString TARGET_LENGTH ++ " frame pattern to begin."
    error := ""
    pendingCaptures := 0
    captures := []
    captureComplete := false
    patternString := ""
    isRunning := false
    selectedCaptureIndex := none }

/-- `reduce`, main.ts lines 196-285: the pure state machine. -/
def reduce (current : AppState) (event : AppEvent) : AppState :=
  match event with
  | .patternChanged value =>
    if current.isRunning then
      { current with patternString := value }
    else
      let remaining : Int := (TARGET_LENGTH : Int) - value.length
      let status :=
        if remaining > 0 then
          "Add " ++ toString remaining ++ " more "
            ++ (if remaining = 1 then "character" else "characters") ++ " to begin."
        else
          "Pattern ready — press start to capture."
      { current with patternString := value, error := "", status := status }
  | .beginRun patternString =>
    { current with
        phaseIsWhite := false
        status := "Preparing capture…"
        error := ""
        pendingCaptures := 0
        captures := []
        captureComplete := false
        isRunning := true
        patternString := patternString
        selectedCaptureIndex := none }
  | .phaseChanged isWhite =>
    let remainingBudget : Int := (TARGET_LENGTH : Int) - current.captures.length
    let pending := max 0 (min (current.pendingCaptures + 1) remainingBudget)
    let status :=
      if TARGET_LENGTH ≤ current.captures.length then
        "Capture complete — review below."
      else
        "Capturing… (" ++ toString current.captures.length ++ "/"
          ++ toString TARGET_LENGTH ++ ")"
    { current with pendingCaptures := pending, phaseIsWhite := isWhite, status := status }
  | .frameCaptured dataUrl =>
    let captures := current.captures ++ [dataUrl]
    let done : Bool := decide (TARGET_LENGTH ≤ captures.length)
    let status :=
      if done then
        "Capture complete — review below."
      else
        "Capturing… (" ++ toString captures.length ++ "/" ++ toString TARGET_LENGTH ++ ")"
    { current with
        captures := captures
        pendingCaptures := max 0 (current.pendingCaptures - 1)
        status := status
        captureComplete := done
        selectedCaptureIndex := some (current.selectedCaptureIndex.getD 0) }
  | .streamStarted =>
    { current with status := "Streaming…", error := "" }
  | .error message stat =>
    { current with error := message, status := stat.getD "Error", isRunning := false }
  | .runComplete =>
    { current with isRunning := false, phaseIsWhite := false }
  | .selectCapture index =>
    { current with selectedCaptureIndex := some index }
  | .other _ => current

/-- Folding a list of events through the reducer (`dispatch` applied in order,
main.ts lines 287-291, ignoring rendering). -/
def runFold (s : AppState) (events : List AppEvent) : AppState :=
  events.foldl reduce s

/-- `clamp(x, lo, hi)` as written in the spec's accumulator contract. -/
def clamp (x lo hi : Int) : Int := max lo (min x hi)

/-- One-shot guard state, modelling the closure variable `called` together
with the state `st` the wrapped effect acts on (`createOnce`, main.ts
lines 60-69). -/
structure Once (σ : Type u) where
  called : Bool
  st : σ

/-- Invoking a `createOnce`-wrapped effect `f`: runs `f` the first time,
does nothing afterwards (main.ts lines 62-68). -/
def callOnce {σ : Type u} (f : σ → σ) (o : Once σ) : Once σ :=
  if o.called then o else { called := true, st := f o.st }

/-- Sequencer closure state of `startIllumination` (main.ts lines 76-77):
the monotone `index` and whether a timer interval is currently scheduled
(`intervalId !== null`). -/
structure SeqState where
  index : Nat
  intervalId : Bool
deriving DecidableEq

/-- `emitStep` (main.ts lines 79-94): one tick of the sequencer.  Returns
the next closure state and the phase value passed to `onPhase`, if any. -/
def emitStep (pattern : List Bool) (s : SeqState) : SeqState × Option Bool :=
  if h : s.index < pattern.length then
    let isWhite := pattern.get ⟨s.index, h⟩
    let index' := s.index + 1
    ({ index := index'
       intervalId := if pattern.length ≤ index' then false else s.intervalId },
     some isWhite)
  else
    ({ s with intervalId := false }, none)

/-- The timer-driven life of a started sequencer: `emitStep` runs once
synchronously (main.ts line 97) and then once per interval tick for as
long as an interval is scheduled.  `fuel` bounds the number of ticks we
unfold; the result is the emitted phase trace and the final closure
state. -/
def seqRun (pattern : List Bool) : Nat → SeqState → List Bool × SeqState
  | 0, s => ([], s)
  | Nat.succ fuel, s =>
    let step := emitStep pattern s
    let emitted := match step.2 with
      | some b => [b]
      | none => []
    if step.1.intervalId then
      let rest := seqRun pattern fuel step.1
      (emitted ++ rest.1, rest.2)
    else
      (emitted, step.1)

/-- `startIllumination` (main.ts lines 72-104) as a trace function: an
empty pattern returns before scheduling anything (lines 73-75); otherwise
the interval is scheduled and `emitStep` fires synchronously, then per
tick. -/
def startIlluminationModel (pattern : List Bool) (fuel : Nat) : List Bool × SeqState :=
  if pattern.length = 0 then ([], ⟨0, false⟩)
  else seqRun pattern fuel ⟨0, true⟩

/-- Body of the cancellation handle returned by `startIllumination`
(main.ts lines 99-103): clears the interval when one is scheduled. -/
def cancelIllumination (s : SeqState) : SeqState :=
  if s.intervalId then { s with intervalId := false } else s

/-- One result of `reader.read()` in the orchestration loop (main.ts
line 401): a frame (whose processing may throw), end-of-data, or the read
call itself throwing. -/
inductive ReadResult where
  | frame (dataUrl : String) (renderFails : Bool)
  | endOfData
  | readError
deriving DecidableEq

/-- Outcome of the `while (true)` read loop of `run` (main.ts lines
399-420): either the trace of read results was exhausted with the loop
still awaiting the next read, or the loop exited.  `stopped` records
whether `stopIllumination` has been invoked, `reads` the number of
`reader.read()` calls, `closed` the number of `frame.close()` calls,
`errored` whether the exit was by a thrown error (caught at line 421),
and `leftover` how many trace items were never read. -/
inductive LoopOutcome where
  | awaiting (st : AppState) (stopped : Bool) (reads closed : Nat)
  | exited (st : AppState) (stopped : Bool) (reads closed : Nat) (errored : Bool) (leftover : Nat)
deriving DecidableEq

/-- The read loop of `run` (main.ts lines 399-420) over a trace of read
results.  A frame is captured only under the guard
`state.pendingCaptures > 0 && state.captures.length < TARGET_LENGTH`
(line 408); when the dispatch brings `captures.length` to the target,
`stopIllumination()` is invoked (lines 413-415).  The inner
`try/finally` closes the frame on every path; an error while processing
a frame propagates out of the loop (there is no inner `catch`). -/
def runLoop (st : AppState) (stopped : Bool) (reads closed : Nat) :
    List ReadResult → LoopOutcome
  | [] => .awaiting st stopped reads closed
  | .endOfData :: rest => .exited st stopped (reads + 1) closed false rest.length
  | .readError :: rest => .exited st stopped (reads + 1) closed true rest.length
  | .frame dataUrl renderFails :: rest =>
    if renderFails then
      .exited st stopped (reads + 1) (closed + 1) true rest.length
    else if 0 < st.pendingCaptures ∧ st.captures.length < TARGET_LENGTH then
      let st' := reduce st (.frameCaptured dataUrl)
      let stopped' := if TARGET_LENGTH ≤ st'.captures.length then true else stopped
      runLoop st' stopped' (reads + 1) (closed + 1) rest
    else
      runLoop st stopped (reads + 1) (closed + 1) rest

/-- The `catch`/`finally` epilogue of `run` (main.ts lines 421-426): on an
errored exit, dispatch the single error event `Rendering stopped.`; in
all exit cases `cleanup()` dispatches `run-complete` (line 394).  A loop
still awaiting a read has no final state yet. -/
def finishRun : LoopOutcome → Option AppState
  | .awaiting _ _ _ _ => none
  | .exited st _ _ _ errored _ =>
    let st' := if errored then reduce st (.error "Rendering stopped." none) else st
    some (reduce st' .runComplete)

/-- Admissibility of an event at a state: `frame-captured` is only ever
dispatched from main.ts lines 408-412, under the guard
`state.pendingCaptures > 0 && state.captures.length < TARGET_LENGTH`;
every other event may arrive at any time. -/
def eventAdmissible (s : AppState) : AppEvent → Prop
  | .frameCaptured _ => 0 < s.pendingCaptures ∧ s.captures.length < TARGET_LENGTH
  | _ => True

/-- States reachable in a run: from `initialState` by admissible events. -/
inductive Reachable : AppState → Prop where
  | init : Reachable initialState
  | step : ∀ s e, Reachable s → eventAdmissible s e → Reachable (reduce s e)

/-- Events that occur strictly inside a run: everything except the
run-starting `begin-run` and the user's `select-capture`. -/
def inRunEvent : AppEvent → Bool
  | .beginRun _ => false
  | .selectCapture _ => false
  | _ => true

/-- Any in-run event preserves `selectedCaptureIndex = some 0`. -/
theorem selectedCaptureIndex_preserved (s : AppState) (e : AppEvent)
    (he : inRunEvent e = true) (hs : s.selectedCaptureIndex = some 0) :
    (reduce s e).selectedCaptureIndex = some 0 := by
  cases e with
  | patternChanged v =>
    simp only [reduce]
    split
    · exact hs
    · exact hs
  | beginRun p => simp [inRunEvent] at he
  | selectCapture i => simp [inRunEvent] at he
  | frameCaptured u =>
    show some (s.selectedCaptureIndex.getD 0) = some 0
    rw [hs]
    rfl
  | phaseChanged b => exact hs
  | streamStarted => exact hs
  | error m st => exact hs
  | runComplete => exact hs
  | other ty => exact hs

/-- C4: reducing a `phase-changed` event at any state sets
`pendingCaptures` to `clamp(pendingCaptures + 1, 0, TARGET_LENGTH −
captures.length)` — the code's `Math.max(0, Math.min(pending + 1,
remainingBudget))` is exactly the spec's clamp. -/
theorem phase_changed_clamps_pending (s : AppState) (b : Bool) :
    (reduce s (.phaseChanged b)).pendingCaptures
      = clamp (s.pendingCaptures + 1) 0 ((TARGET_LENGTH : Int) - s.captures.length) := rfl

/-- C8: the reducer is total — every state/event pair yields a state (the
Lean translation is a total function, as the source `switch` covers all
shapes) — and any event whose type matches none of the recognized kinds
takes the `default` branch and returns the input state unchanged. -/
theorem reduce_total_and_default_noop :
    (∀ (s : AppState) (e : AppEvent), ∃ s', reduce s e = s') ∧
    (∀ (s : AppState) (ty : String), reduce s (.other ty) = s) :=
  ⟨fun s e => ⟨reduce s e, rfl⟩, fun _ _ => rfl⟩

/-- C7: the one-shot wrapper `createOnce` is idempotent — invoking a
wrapped effect a second time changes nothing, so the state after two
invocations equals the state after one (this covers both the run
`cleanup` and the sequencer cancellation handle, which are
`createOnce`-wrapped) — and the cancellation body is a no-op after the
sequencer has self-terminated (interval already cleared). -/
theorem cleanup_idempotent :
    (∀ (σ : Type) (f : σ → σ) (o : Once σ), callOnce f (callOnce f o) = callOnce f o) ∧
    (∀ s : SeqState, s.intervalId = false → cancelIllumination s = s) := by
  constructor
  · intro σ f o
    unfold callOnce
    by_cases h : o.called <;> simp [h]
  · intro s h
    simp [cancelIllumination, h]

/-- Witness for C7 at concrete inputs. -/
theorem cleanup_idempotent_witness :
    callOnce (fun n => n + 1) (callOnce (fun n => n + 1) (⟨false, (0 : Nat)⟩ : Once Nat))
        = callOnce (fun n => n + 1) (⟨false, (0 : Nat)⟩ : Once Nat)
      ∧ cancelIllumination ⟨3, false⟩ = ⟨3, false⟩ :=
  ⟨cleanup_idempotent.1 Nat (fun n => n + 1) ⟨false, 0⟩,
   cleanup_idempotent.2 ⟨3, false⟩ rfl⟩

/-- C9: `frame-captured` on a state with `selectedCaptureIndex = null`
sets it to `0`; on a non-null index it keeps that index (never
overwrites); `begin-run` resets it to `null`; and once it is `some 0`,
any sequence of in-run events (everything except `begin-run` and
`select-capture`) keeps it at `some 0`. -/
theorem selected_index_auto :
    (∀ (s : AppState) (u : String), s.selectedCaptureIndex = none →
        (reduce s (.frameCaptured u)).selectedCaptureIndex = some 0) ∧
    (∀ (s : AppState) (u : String) (i : Int), s.selectedCaptureIndex = some i →
        (reduce s (.frameCaptured u)).selectedCaptureIndex = some i) ∧
    (∀ (s : AppState) (p : String), (reduce s (.beginRun p)).selectedCaptureIndex = none) ∧
    (∀ (s : AppState) (es : List AppEvent), s.selectedCaptureIndex = some 0 →
        (∀ e ∈ es, inRunEvent e = true) →
        (runFold s es).selectedCaptureIndex = some 0) := by
  refine ⟨?_, ?_, ?_, ?_⟩
  · intro s u h
    show some (s.selectedCaptureIndex.getD 0) = some 0
    rw [h]
    rfl
  · intro s u i h
    show some (s.selectedCaptureIndex.getD 0) = some i
    rw [h]
    rfl
  · intro s p
    rfl
  · intro s es
    induction es generalizing s with
    | nil => intro hs _; exact hs
    | cons e es ih =>
      intro hs hall
      have he : inRunEvent e = true := hall e (List.mem_cons_self e es)
      have htl : ∀ x ∈ es, inRunEvent x = true := fun x hx => hall x (List.mem_cons_of_mem e hx)
      exact ih (reduce s e) (selectedCaptureIndex_preserved s e he hs) htl

/-- Witness for C9 at concrete inputs. -/
theorem selected_index_auto_witness :
    (reduce initialState (.frameCaptured "d")).selectedCaptureIndex = some 0
      ∧ (reduce { initialState with selectedCaptureIndex := some 5 }
            (.frameCaptured "e")).selectedCaptureIndex = some 5
      ∧ (reduce initialState (.beginRun "BW")).selectedCaptureIndex = none
      ∧ (runFold { initialState with selectedCaptureIndex := some 0 }
            [.phaseChanged true, .streamStarted]).selectedCaptureIndex = some 0 :=
  ⟨selected_index_auto.1 initialState "d" rfl,
   selected_index_auto.2.1 { initialState with selectedCaptureIndex := some 5 } "e" 5 rfl,
   selected_index_auto.2.2.1 initialState "BW",
   selected_index_auto.2.2.2 { initialState with selectedCaptureIndex := some 0 }
     [.phaseChanged true, .streamStarted] rfl (by decide)⟩

/-- C1: in every reachable state of a run,
`0 ≤ pendingCaptures ≤ TARGET_LENGTH − captures.length`: no admissible
event sequence drives `pendingCaptures` above the remaining budget or
below zero. -/
theorem reachable_pending_budget (s : AppState) (h : Reachable s) :
    0 ≤ s.pendingCaptures
      ∧ s.pendingCaptures ≤ (TARGET_LENGTH : Int) - s.captures.length := by
  induction h with
  | init => norm_num [initialState]
  | step s e hr ha ih =>
    obtain ⟨h1, h2⟩ := ih
    cases e with
    | patternChanged v =>
      simp only [reduce]
      split
      · exact ⟨h1, h2⟩
      · exact ⟨h1, h2⟩
    | beginRun p =>
      show (0 : Int) ≤ 0 ∧ (0 : Int) ≤ (TARGET_LENGTH : Int) - ([] : List String).length
      norm_num
    | phaseChanged b =>
      show 0 ≤ max 0 (min (s.pendingCaptures + 1) ((TARGET_LENGTH : Int) - s.captures.length))
          ∧ max 0 (min (s.pendingCaptures + 1) ((TARGET_LENGTH : Int) - s.captures.length))
              ≤ (TARGET_LENGTH : Int) - s.captures.length
      refine ⟨le_max_left _ _, max_le ?_ (min_le_right _ _)⟩
      exact le_trans h1 h2
    | frameCaptured u =>
      obtain ⟨hp, hl⟩ := ha
      show 0 ≤ max 0 (s.pendingCaptures - 1)
          ∧ max 0 (s.pendingCaptures - 1)
              ≤ (TARGET_LENGTH : Int) - (s.captures ++ [u]).length
      rw [List.length_append, List.length_singleton]
      push_cast
      constructor
      · exact le_max_left _ _
      · apply max_le <;> omega
    | streamStarted => exact ⟨h1, h2⟩
    | error m st => exact ⟨h1, h2⟩
    | runComplete => exact ⟨h1, h2⟩
    | selectCapture i => exact ⟨h1, h2⟩
    | other ty => exact ⟨h1, h2⟩

/-- Witness for C1 at the initial reachable state. -/
theorem reachable_pending_budget_witness :
    0 ≤ initialState.pendingCaptures
      ∧ initialState.pendingCaptures
          ≤ (TARGET_LENGTH : Int) - initialState.captures.length :=
  reachable_pending_budget initialState Reachable.init

/-- C5: in every reachable state, `captureComplete` is true exactly when
`captures.length = TARGET_LENGTH`. -/
theorem reachable_captureComplete (s : AppState) (h : Reachable s) :
    s.captureComplete = true ↔ s.captures.length = TARGET_LENGTH := by
  induction h with
  | init => simp [initialState, TARGET_LENGTH]
  | step s e hr ha ih =>
    cases e with
    | patternChanged v =>
      simp only [reduce]
      split
      · exact ih
      · exact ih
    | beginRun p =>
      show false = true ↔ ([] : List String).length = TARGET_LENGTH
      simp [TARGET_LENGTH]
    | phaseChanged b => exact ih
    | frameCaptured u =>
      obtain ⟨hp, hl⟩ := ha
      show decide (TARGET_LENGTH ≤ (s.captures ++ [u]).length) = true
          ↔ (s.captures ++ [u]).length = TARGET_LENGTH
      rw [List.length_append, List.length_singleton]
      simp only [decide_eq_true_eq]
      omega
    | streamStarted => exact ih
    | error m st => exact ih
    | runComplete => exact ih
    | selectCapture i => exact ih
    | other ty => exact ih

/-- Witness for C5 at the initial reachable state. -/
theorem reachable_captureComplete_witness :
    initialState.captureComplete = true
      ↔ initialState.captures.length = TARGET_LENGTH :=
  reachable_captureComplete initialState Reachable.init

/-- From any index `i` still inside the pattern with the interval
scheduled, the sequencer emits exactly the suffix `pattern.drop i`, in
order, then clears its interval at index `pattern.length`. -/
theorem seqRun_emits_suffix (pattern : List Bool) :
    ∀ (fuel i : Nat), i < pattern.length → pattern.length ≤ i + fuel →
      seqRun pattern fuel ⟨i, true⟩ = (pattern.drop i, ⟨pattern.length, false⟩) := by
  intro fuel
  induction fuel with
  | zero => intro i hi hle; omega
  | succ fuel ih =>
    intro i hi hle
    have hdrop : pattern.drop i = pattern.get ⟨i, hi⟩ :: pattern.drop (i + 1) := by
      rw [List.drop_eq_getElem_cons hi]
      simp [List.get_eq_getElem]
    rw [seqRun]
    simp only [emitStep, hi, dif_pos]
    by_cases hend : pattern.length ≤ i + 1
    · have hlen : pattern.length = i + 1 := by omega
      rw [if_pos hend]
      simp only [if_neg (by simp : ¬ (false = true))]
      refine Prod.ext ?_ ?_
      · show [pattern.get ⟨i, hi⟩] = pattern.drop i
        rw [hdrop, List.drop_eq_nil_of_le (by omega)]
      · show (⟨i + 1, false⟩ : SeqState) = ⟨pattern.length, false⟩
        rw [hlen]
    · rw [if_neg hend]
      rw [ih (i + 1) (by omega) (by omega), hdrop]
      simp

/-- C6: for every phase sequence and enough timer ticks, the sequencer
started by `startIllumination` invokes the phase callback exactly once
per element, in index order `0..n-1` (trace = the pattern itself, the
first value emitted synchronously), and ends with no interval scheduled;
an empty sequence emits nothing; in either case cancelling the finished
sequencer is a no-op. -/
theorem startIllumination_trace (pattern : List Bool) (fuel : Nat)
    (hfuel : pattern.length ≤ fuel) :
    startIlluminationModel pattern fuel = (pattern, ⟨pattern.length, false⟩)
      ∧ cancelIllumination (startIlluminationModel pattern fuel).2
          = (startIlluminationModel pattern fuel).2 := by
  have hmain : startIlluminationModel pattern fuel = (pattern, ⟨pattern.length, false⟩) := by
    unfold startIlluminationModel
    by_cases h0 : pattern.length = 0
    · rw [if_pos h0]
      rw [List.eq_nil_of_length_eq_zero h0]
      rfl
    · rw [if_neg h0]
      have hi : 0 < pattern.length := Nat.pos_of_ne_zero h0
      have h := seqRun_emits_suffix pattern fuel 0 hi (by omega)
      simpa using h
  refine ⟨hmain, ?_⟩
  rw [hmain]
  rfl

/-- Witness for C6 at a concrete pattern. -/
theorem startIllumination_trace_witness :
    startIlluminationModel [true, false, true] 3 = ([true, false, true], ⟨3, false⟩)
      ∧ cancelIllumination (startIlluminationModel [true, false, true] 3).2
          = (startIlluminationModel [true, false, true] 3).2 :=
  startIllumination_trace [true, false, true] 3 (by decide)

/-- A mid-run state one capture short of the budget: 19 captures already
recorded and one capture pending. -/
def s19 : AppState :=
  { initialState with
      pendingCaptures := 1
      captures := List.replicate 19 "d"
      isRunning := true }

/-- Once the capture budget is exhausted (`TARGET_LENGTH ≤
captures.length`), the read loop keeps reading: it consumes every
remaining frame (closing each) without capturing, and exits only at
end-of-data. -/
theorem runLoop_drains_after_target (v : String) :
    ∀ (k : Nat) (s : AppState) (stopped : Bool) (r c : Nat),
      TARGET_LENGTH ≤ s.captures.length →
      runLoop s stopped r c (List.replicate k (.frame v false) ++ [.endOfData])
        = .exited s stopped (r + k + 1) (c + k) false 0 := by
  intro k
  induction k with
  | zero => intro s stopped r c h; rfl
  | succ k ih =>
    intro s stopped r c h
    rw [List.replicate_succ, List.cons_append]
    have hguard : ¬ (0 < s.pendingCaptures ∧ s.captures.length < TARGET_LENGTH) := by
      rintro ⟨-, hlt⟩; omega
    rw [runLoop]
    simp only [if_neg (by simp : ¬ (false = true)), if_neg hguard]
    rw [ih s stopped (r + 1) (c + 1) h]
    simp only [LoopOutcome.exited.injEq]
    refine ⟨trivial, trivial, by omega, by omega, trivial, trivial⟩

/-- C2 (amended): when a captured frame brings `captures.length` to
`TARGET_LENGTH`, the loop invokes `stopIllumination` at that very step —
cancelling the PhaseSequencer even if phase ticks remain — but the read
cycle does NOT terminate: it goes on reading (and closing) every
subsequent frame, exiting only when the stream signals end-of-data. -/
theorem target_reached_cancels_sequencer_but_loop_reads_on
    (s : AppState) (stopped : Bool) (r c : Nat) (u v : String) (k : Nat)
    (hp : 0 < s.pendingCaptures) (hl : s.captures.length + 1 = TARGET_LENGTH) :
    runLoop s stopped r c
        (.frame u false :: (List.replicate k (.frame v false) ++ [.endOfData]))
      = .exited (reduce s (.frameCaptured u)) true (r + k + 2) (c + k + 1) false 0 := by
  have hlt : s.captures.length < TARGET_LENGTH := by omega
  have hlen : (reduce s (.frameCaptured u)).captures.length = s.captures.length + 1 := by
    show (s.captures ++ [u]).length = s.captures.length + 1
    rw [List.length_append, List.length_singleton]
  rw [runLoop]
  simp only [if_neg (by simp : ¬ (false = true)), if_pos (And.intro hp hlt)]
  rw [if_pos (by rw [hlen, hl])]
  rw [runLoop_drains_after_target v k (reduce s (.frameCaptured u)) true (r + 1) (c + 1)
    (by rw [hlen, hl])]
  simp only [LoopOutcome.exited.injEq]
  refine ⟨trivial, trivial, by omega, by omega, trivial, trivial⟩

/-- Witness for the amended C2 at a concrete state one capture short of
the budget. -/
theorem target_reached_cancels_sequencer_but_loop_reads_on_witness :
    0 < s19.pendingCaptures ∧ s19.captures.length + 1 = TARGET_LENGTH
      ∧ runLoop s19 false 0 0
            (.frame "a" false :: (List.replicate 1 (.frame "b" false) ++ [.endOfData]))
          = .exited (reduce s19 (.frameCaptured "a")) true 3 2 false 0 :=
  ⟨by decide, by decide,
   target_reached_cancels_sequencer_but_loop_reads_on s19 false 0 0 "a" "b" 1
     (by decide) (by decide)⟩

/-- C2 counterexample to the claim as stated: at a state one frame short
of the budget, the first read completes the budget (and the sequencer is
signalled), yet the loop performs 3 reads in total — it reads the second
frame and the end-of-data marker after the target was reached, leaving 0
unread items, instead of stopping its read cycle after read 1. -/
theorem loop_reads_past_target_counterexample :
    (reduce s19 (.frameCaptured "a")).captures.length = TARGET_LENGTH
      ∧ runLoop s19 false 0 0 [.frame "a" false, .frame "b" false, .endOfData]
          = .exited (reduce s19 (.frameCaptured "a")) true 3 2 false 0
      ∧ (3 : Nat) ≠ 1 :=
  ⟨by decide, by decide, by decide⟩

/-- C3 (amended): a failure while processing a single frame is NOT
contained to that frame: the inner `try` has no `catch`, so the error
propagates out of the `while` loop (after the `finally` closes the
failing frame), is routed through the single `error` event (`Rendering
stopped.`), and cleanup forces `isRunning = false`; the rest of the
stream is left unread. -/
theorem frame_failure_fatal (s : AppState) (stopped : Bool) (r c : Nat)
    (u : String) (rest : List ReadResult) :
    runLoop s stopped r c (.frame u true :: rest)
        = .exited s stopped (r + 1) (c + 1) true rest.length
      ∧ finishRun (.exited s stopped (r + 1) (c + 1) true rest.length)
          = some (reduce (reduce s (.error "Rendering stopped." none)) .runComplete)
      ∧ (reduce (reduce s (.error "Rendering stopped." none)) .runComplete).error
          = "Rendering stopped."
      ∧ (reduce (reduce s (.error "Rendering stopped." none)) .runComplete).status = "Error"
      ∧ (reduce (reduce s (.error "Rendering stopped." none)) .runComplete).isRunning
          = false :=
  ⟨rfl, rfl, rfl, rfl, rfl⟩

/-- C3 counterexample to the claim as stated: a rendering failure on the
first frame exits the loop at once — the following good frame and the
end-of-data marker (2 items) are never read — instead of the loop
continuing to the next frame. -/
theorem frame_failure_counterexample :
    runLoop initialState false 0 0 [.frame "u" true, .frame "v" false, .endOfData]
        = .exited initialState false 1 1 true 2
      ∧ (2 : Nat) ≠ 0 :=
  ⟨rfl, by decide⟩

/-- The characters of a parsed pattern text all satisfy the `B`/`W`
filter. -/
theorem parsePattern_chars (value : String) (limit : Nat) :
    ∀ c ∈ (parsePatternInput value limit).text.data, (c == 'B' || c == 'W') = true :=
  fun _ hc => (List.mem_filter.mp (List.take_subset _ _ hc)).2

/-- C10: for every input string and limit, `parsePatternInput` returns a
text containing only `B` and `W`, of length at most the limit, with
`sequence[i] = true` exactly when `text[i] = 'W'` (and matching
lengths), `isComplete` true iff the text length equals the limit, and
re-parsing its own output text returns it unchanged. -/
theorem parsePatternInput_props (value : String) (limit : Nat) :
    (∀ c ∈ (parsePatternInput value limit).text.data, c = 'B' ∨ c = 'W')
      ∧ (parsePatternInput value limit).text.length ≤ limit
      ∧ (parsePatternInput value limit).sequence.length
          = (parsePatternInput value limit).text.length
      ∧ (∀ (i : Nat) (h : i < (parsePatternInput value limit).sequence.length)
            (h' : i < (parsePatternInput value limit).text.data.length),
            ((parsePatternInput value limit).sequence.get ⟨i, h⟩ = true
              ↔ (parsePatternInput value limit).text.data.get ⟨i, h'⟩ = 'W'))
      ∧ ((parsePatternInput value limit).isComplete = true
          ↔ (parsePatternInput value limit).text.length = limit)
      ∧ parsePatternInput (parsePatternInput value limit).text limit
          = parsePatternInput value limit := by
  have hBW : ∀ c ∈ (parsePatternInput value limit).text.data, c = 'B' ∨ c = 'W' := by
    intro c hc
    have h := parsePattern_chars value limit c hc
    simp only [Bool.or_eq_true, beq_iff_eq] at h
    exact h
  refine ⟨hBW, ?_, ?_, ?_, ?_, ?_⟩
  · exact List.length_take_le _ _
  · exact List.length_map _ _
  · intro i h h'
    simp [parsePatternInput, patternText, List.get_eq_getElem, List.getElem_map]
  · have hlen : (parsePatternInput value limit).sequence.length
        = (parsePatternInput value limit).text.length := List.length_map _ _
    show ((parsePatternInput value limit).sequence.length == limit) = true ↔ _
    rw [hlen]
    exact beq_iff_eq
  · have hup : (patternText value limit).map Char.toUpper = patternText value limit := by
      have hid : ∀ c ∈ patternText value limit, Char.toUpper c = id c := by
        intro c hc
        rcases hBW c hc with h | h <;> rw [h] <;> rfl
      rw [List.map_congr_left hid, List.map_id]
    have hfil : (patternText value limit).filter (fun c => c == 'B' || c == 'W')
        = patternText value limit :=
      List.filter_eq_self.mpr (parsePattern_chars value limit)
    have htake : (patternText value limit).take limit = patternText value limit :=
      List.take_of_length_le (List.length_take_le _ _)
    have hkey : patternText (String.mk (patternText value limit)) limit
        = patternText value limit := by
      show (((patternText value limit).map Char.toUpper).filter
          (fun c => c == 'B' || c == 'W')).take limit = patternText value limit
      rw [hup, hfil, htake]
    show ParsedPattern.mk
        (String.mk (patternText (String.mk (patternText value limit)) limit))
        ((patternText (String.mk (patternText value limit)) limit).map (fun c => c == 'W'))
        (((patternText (String.mk (patternText value limit)) limit).map
            (fun c => c == 'W')).length == limit)
      = ParsedPattern.mk (String.mk (patternText value limit))
        ((patternText value limit).map (fun c => c == 'W'))
        (((patternText value limit).map (fun c => c == 'W')).length == limit)
    rw [hkey]

/-- Witness for C10 at a concrete input: lowercase letters are
uppercased, foreign characters dropped, and the text truncated to the
limit. -/
theorem parsePatternInput_props_witness :
    ((parsePatternInput "bwxb" 2).isComplete = true
        ↔ (parsePatternInput "bwxb" 2).text.length = 2)
      ∧ parsePatternInput (parsePatternInput "bwxb" 2).text 2 = parsePatternInput "bwxb" 2
      ∧ ((parsePatternInput "bwxb" 2).sequence.get ⟨1, by decide⟩ = true
          ↔ (parsePatternInput "bwxb" 2).text.data.get ⟨1, by decide⟩ = 'W') :=
  ⟨(parsePatternInput_props "bwxb" 2).2.2.2.2.1,
   (parsePatternInput_props "bwxb" 2).2.2.2.2.2,
   (parsePatternInput_props "bwxb" 2).2.2.2.1 1 (by decide) (by decide)⟩
